import Mathlib

/-!
Verification of the MEPS fixed-width ingestion core.

The Schema Extractor (`parse_sas_instructions` in `src/data/parse_ascii.py`)
is embedded below as a pure function over lists of characters: each Python
line of the scanner loop is translated directly (section flags, `str.strip`,
`str.startswith`, and the two regular expressions `@(\d+)\s+([A-Z0-9_]+)\s+(\$?)(\d+)\.`
and `([A-Z0-9_]+)\s*=\s*"(.*)"` used with `re.search`).  Both patterns are
deterministic: every repetition is over a character class disjoint from the
character that must follow it, so Python's backtracking search is equivalent
to the leftmost maximal-run matcher implemented here.

The Fixed-Width Decoder of the pipeline is realised by the pandas library
(`pd.read_fwf` and `pd.to_numeric(errors='coerce')`), whose code is not part
of this repository; it is modelled from the specification where needed.
-/

abbrev Chars := List Char

/-- Whitespace as recognised by Python's `str.strip` and `\s` on Latin-1 text:
space, tab, newline, vertical tab, form feed, carriage return, the four
separator controls 0x1c-0x1f, NEL and NBSP. -/
def isSpaceCh (c : Char) : Bool :=
  c.toNat == 32 || c.toNat == 9 || c.toNat == 10 || c.toNat == 11 ||
  c.toNat == 12 || c.toNat == 13 || (28 ≤ c.toNat && c.toNat ≤ 31) ||
  c.toNat == 133 || c.toNat == 160

/-- Decimal digit, the class `\d` on Latin-1 text. -/
def isDigitCh (c : Char) : Bool :=
  48 ≤ c.toNat && c.toNat ≤ 57

/-- The identifier class `[A-Z0-9_]` of both patterns. -/
def isNameCh (c : Char) : Bool :=
  (65 ≤ c.toNat && c.toNat ≤ 90) || (48 ≤ c.toNat && c.toNat ≤ 57) || c.toNat == 95

/-- Python `str.strip`: drop whitespace from both ends of a line. -/
def pyStrip (l : Chars) : Chars :=
  ((l.dropWhile isSpaceCh).reverse.dropWhile isSpaceCh).reverse

/-- Python `str.startswith`: `startsWith l pat` is true when `pat` is an
initial segment of `l`. -/
def startsWith : Chars → Chars → Bool
  | _, [] => true
  | [], _ :: _ => false
  | c :: cs, p :: ps => c == p && startsWith cs ps

/-- Value of a digit string read in base 10 (how `int` reads the captured
groups `(\d+)`). -/
def digitsToNat (ds : Chars) : Nat :=
  ds.foldl (fun a c => 10 * a + (c.toNat - 48)) 0

/-- One-or-more repetition of a character class (`\d+`, `\s+`, `[A-Z0-9_]+`):
the maximal run must be non-empty; returns the run and the remainder. -/
def expectRun (p : Char → Bool) (cs : Chars) : Option (Chars × Chars) :=
  if cs.takeWhile p = [] then none else some (cs.takeWhile p, cs.dropWhile p)

/-- The optional `(\$?)` group: consume a leading `$` when present. -/
def dollarSplit (cs : Chars) : Bool × Chars :=
  match cs with
  | c :: t => if c = '$' then (true, t) else (false, cs)
  | [] => (false, [])

/-- A successfully captured field directive: groups 1-4 of
`@(\d+)\s+([A-Z0-9_]+)\s+(\$?)(\d+)\.` (start position, variable name,
`$` marker, field length). -/
structure Directive where
  start : Nat
  name : Chars
  isChar : Bool
  width : Nat
deriving DecidableEq

/-- Attempt to match the field-directive pattern anchored at the head of the
given characters (one candidate position of `re.search`). -/
def matchDirectiveAt (cs : Chars) : Option Directive :=
  match cs with
  | [] => none
  | c :: r0 =>
    if c = '@' then
      match expectRun isDigitCh r0 with
      | none => none
      | some (ds, r1) =>
        match expectRun isSpaceCh r1 with
        | none => none
        | some (_, r2) =>
          match expectRun isNameCh r2 with
          | none => none
          | some (nm, r3) =>
            match expectRun isSpaceCh r3 with
            | none => none
            | some (_, r4) =>
              let pr := dollarSplit r4
              match expectRun isDigitCh pr.2 with
              | none => none
              | some (ws, r6) =>
                match r6 with
                | d :: _ =>
                  if d = '.' then
                    some ⟨digitsToNat ds, nm, pr.1, digitsToNat ws⟩
                  else none
                | [] => none
    else none

/-- `re.search` for the field-directive pattern: try every start position in
order and return the leftmost match. -/
def searchDirective : Chars → Option Directive
  | [] => none
  | c :: rest =>
    match matchDirectiveAt (c :: rest) with
    | some d => some d
    | none => searchDirective rest

/-- The greedy `(.*)"` tail of the description pattern: the captured text
extends to the last `"` of the remaining characters; fails when no `"`
remains. -/
def lastQuoteSplit (cs : Chars) : Option Chars :=
  match cs.reverse.dropWhile (fun c => !(c == '"')) with
  | c :: before => if c = '"' then some before.reverse else none
  | [] => none

/-- Attempt to match the description pattern `([A-Z0-9_]+)\s*=\s*"(.*)"`
anchored at the head of the given characters. -/
def matchLabelAt (cs : Chars) : Option (Chars × Chars) :=
  match expectRun isNameCh cs with
  | none => none
  | some (nm, r1) =>
    match r1.dropWhile isSpaceCh with
    | c2 :: r3 =>
      if c2 = '=' then
        match r3.dropWhile isSpaceCh with
        | c4 :: r5 =>
          if c4 = '"' then
            match lastQuoteSplit r5 with
            | some content => some (nm, content)
            | none => none
          else none
        | [] => none
      else none
    | [] => none

/-- `re.search` for the description pattern: leftmost match. -/
def searchLabel : Chars → Option (Chars × Chars)
  | [] => none
  | c :: rest =>
    match matchLabelAt (c :: rest) with
    | some r => some r
    | none => searchLabel rest

/-- Python `dict` assignment `d[k] = v` on an insertion-ordered association
list: update in place when the key exists, else append at the end. -/
def dictInsert (d : List (Chars × Chars)) (k v : Chars) : List (Chars × Chars) :=
  match d with
  | [] => [(k, v)]
  | (k1, v1) :: t => if k1 = k then (k, v) :: t else (k1, v1) :: dictInsert t k v

/-- The four accumulators returned by `parse_sas_instructions`. -/
structure SasMeta where
  colspecs : List (Int × Int)
  names : List Chars
  dtypes : List (Chars × Chars)
  labels : List (Chars × Chars)
deriving DecidableEq

/-- Loop state of the scanner: the accumulators plus the two section flags
`is_input_section` and `is_label_section`. -/
structure ScanState where
  meta : SasMeta
  is_input : Bool
  is_label : Bool
deriving DecidableEq

def kwINPUT : Chars := ['I', 'N', 'P', 'U', 'T']
def kwLABEL : Chars := ['L', 'A', 'B', 'E', 'L']
def kwSemi : Chars := [';']

def strSTR : Chars := ['s', 't', 'r']
def strFLOAT32 : Chars := ['f', 'l', 'o', 'a', 't', '3', '2']

/-- The `if is_input_section:` block of the loop body: search the line for
the field-directive pattern and, on a match, append the 0-based column
bounds, the name, and the dtype preference. -/
def inputStep (s : ScanState) (line : Chars) : ScanState :=
  if s.is_input then
    match searchDirective line with
    | some d =>
      let sp : Int := (d.start : Int) - 1
      { s with meta :=
        { s.meta with
          colspecs := s.meta.colspecs ++ [(sp, sp + (d.width : Int))],
          names := s.meta.names ++ [d.name],
          dtypes := dictInsert s.meta.dtypes d.name
            (if d.isChar then strSTR else strFLOAT32) } }
    | none => s
  else s

/-- The `if is_label_section:` block of the loop body: search the line for
the description pattern and, on a match, record the description under its
identifier. -/
def labelStep (s : ScanState) (line : Chars) : ScanState :=
  if s.is_label then
    match searchLabel line with
    | some nd =>
      { s with meta := { s.meta with labels := dictInsert s.meta.labels nd.1 nd.2 } }
    | none => s
  else s

/-- One iteration of the `for line in f` loop of `parse_sas_instructions`:
strip the line, handle the three section markers (each `continue`s), and
otherwise run the input-section block followed by the label-section block
(`inputStep` never changes the section flags, so checking `is_label` after
it equals Python's reading of the flag set before the iteration). -/
def scanLine (s : ScanState) (raw : Chars) : ScanState :=
  let line := pyStrip raw
  if startsWith line kwINPUT then
    { s with is_input := true, is_label := false }
  else if startsWith line kwLABEL then
    { s with is_label := true, is_input := false }
  else if startsWith line kwSemi then
    { s with is_input := false, is_label := false }
  else
    labelStep (inputStep s line) line

def initState : ScanState := ⟨⟨[], [], [], []⟩, false, false⟩

/-- The Schema Extractor `parse_sas_instructions`, as a function over the
list of lines of the grammar file. -/
def parse_sas_instructions (lines : List Chars) : SasMeta :=
  (lines.foldl scanLine initState).meta

/-- A canonical well-formed field-directive line `@N NAME W.` or
`@N NAME $W.`: `ds` are the digits of N, `ws` the digits of W, and `b`
records the presence of the `$` text marker. -/
def directiveLine (ds nm : Chars) (b : Bool) (ws : Chars) : Chars :=
  '@' :: (ds ++ ' ' :: (nm ++ ' ' :: ((if b then '$' :: ws else ws) ++ ['.'])))

/-- A canonical description line `NAME = "desc"`. -/
def labelLine (nm desc : Chars) : Chars :=
  nm ++ ' ' :: '=' :: ' ' :: '"' :: (desc ++ ['"'])

/-- Well-formedness of one colspec interval as stated by the specification's
invariant section, relaxed to what the code guarantees. -/
def colspecOk (p : Int × Int) : Prop := -1 ≤ p.1 ∧ p.1 ≤ p.2

/- ------------------------------------------------------------------
Fixed-Width Decoder model.

Modelled from the spec: the decoding of records is performed by the pandas
library (`pd.read_fwf` slicing each line at the colspec bounds, and
`pd.to_numeric(errors='coerce')` for numeric coercion), which is not code of
this repository.  The definitions below follow the specification's §4.2:
"extract the substring spanning [start_offset, end_offset) clipped to the
available record length; trim surrounding whitespace", Text kind stores the
trimmed substring, Numeric kind parses a decimal number and stores a
missing-value marker on failure.
------------------------------------------------------------------- -/

/-- Column kind: `$` columns are Text, others Numeric. -/
inductive ColKind
  | Text
  | Numeric
deriving DecidableEq

/-- Modelled from the spec: a schema column as defined in §3 of the
specification (name, half-open 0-based interval, kind). -/
structure ColumnSpec where
  name : Chars
  start_offset : Nat
  end_offset : Nat
  kind : ColKind
deriving DecidableEq

/-- A decoded cell: a missing-value marker, a number, or a text value. -/
inductive CellValue
  | missing
  | num (q : Rat)
  | text (s : Chars)
deriving DecidableEq

/-- Modelled from the spec: the substring spanning `[a, b)` clipped to the
available record length. -/
def extractField (record : Chars) (a b : Nat) : Chars :=
  (record.drop a).take (b - a)

/-- Modelled from the spec: parse a trimmed substring as a decimal number
(optional sign, integer digits, optional fractional digits); `none` when the
string is empty or not a decimal number. -/
def parseDecimal (cs : Chars) : Option Rat :=
  let sg : Int × Chars :=
    match cs with
    | c :: t => if c = '-' then (-1, t) else if c = '+' then (1, t) else (1, cs)
    | [] => (1, [])
  let ip := sg.2.takeWhile isDigitCh
  let r2 := sg.2.dropWhile isDigitCh
  match r2 with
  | [] => if ip = [] then none else some ((sg.1 * (digitsToNat ip : Int) : Int) : Rat)
  | c :: r3 =>
    if c = '.' then
      let fp := r3.takeWhile isDigitCh
      let r4 := r3.dropWhile isDigitCh
      if r4 = [] then
        if ip = [] ∧ fp = [] then none
        else some ((sg.1 : Rat) *
          ((digitsToNat ip : Rat) + (digitsToNat fp : Rat) / (10 : Rat) ^ fp.length))
      else none
    else none

/-- Modelled from the spec: numeric coercion of one raw cell substring —
trim it and parse it as a decimal number, `none` standing for the
missing-value marker. -/
def decodeNumericCell (raw : Chars) : Option Rat :=
  parseDecimal (pyStrip raw)

/-- Modelled from the spec: decode one cell of a record for one column —
clip, trim, then store the string (Text) or the parsed number or missing
marker (Numeric). -/
def decodeCell (record : Chars) (c : ColumnSpec) : CellValue :=
  let raw := pyStrip (extractField record c.start_offset c.end_offset)
  match c.kind with
  | ColKind.Text => CellValue.text raw
  | ColKind.Numeric =>
    match parseDecimal raw with
    | some q => CellValue.num q
    | none => CellValue.missing

/-- Modelled from the spec: decode one record against a whole schema. -/
def decodeRow (schema : List ColumnSpec) (record : Chars) : List CellValue :=
  schema.map (fun c => decodeCell record c)

/-- Modelled from the spec: decode a stream of records, one row per record. -/
def decodeTable (schema : List ColumnSpec) (records : List Chars) : List (List CellValue) :=
  records.map (fun r => decodeRow schema r)

/- Helper lemmas about maximal runs and prefixes. -/

theorem takeWhile_append_stop {p : Char → Bool} {l r : Chars}
    (hl : ∀ c ∈ l, p c = true) (hr : ∀ c, r.head? = some c → p c = false) :
    (l ++ r).takeWhile p = l := by
  induction l with
  | nil =>
    cases r with
    | nil => rfl
    | cons c t => simp [List.takeWhile_cons, hr c rfl]
  | cons c t ih =>
    have hc : p c = true := hl c (List.mem_cons_self c t)
    simp only [List.cons_append, List.takeWhile_cons, hc, if_true]
    rw [ih (fun x hx => hl x (List.mem_cons_of_mem c hx))]

theorem dropWhile_append_stop {p : Char → Bool} {l r : Chars}
    (hl : ∀ c ∈ l, p c = true) (hr : ∀ c, r.head? = some c → p c = false) :
    (l ++ r).dropWhile p = r := by
  induction l with
  | nil =>
    cases r with
    | nil => rfl
    | cons c t => simp [List.dropWhile_cons, hr c rfl]
  | cons c t ih =>
    have hc : p c = true := hl c (List.mem_cons_self c t)
    simp only [List.cons_append, List.dropWhile_cons, hc, if_true]
    exact ih (fun x hx => hl x (List.mem_cons_of_mem c hx))

theorem expectRun_append {p : Char → Bool} {l r : Chars} (hne : l ≠ [])
    (hl : ∀ c ∈ l, p c = true) (hr : ∀ c, r.head? = some c → p c = false) :
    expectRun p (l ++ r) = some (l, r) := by
  simp [expectRun, takeWhile_append_stop hl hr, dropWhile_append_stop hl hr, hne]

theorem isNameCh_not_space {c : Char} (h : isNameCh c = true) : isSpaceCh c = false := by
  simp only [isNameCh, Bool.or_eq_true, Bool.and_eq_true, decide_eq_true_eq, beq_iff_eq] at h
  simp only [isSpaceCh, Bool.or_eq_false_iff, Bool.and_eq_false_iff, beq_eq_false_iff_ne,
    ne_eq, decide_eq_false_iff_not, not_le]
  omega

theorem isDigitCh_not_space {c : Char} (h : isDigitCh c = true) : isSpaceCh c = false := by
  simp only [isDigitCh, Bool.and_eq_true, decide_eq_true_eq] at h
  simp only [isSpaceCh, Bool.or_eq_false_iff, Bool.and_eq_false_iff, beq_eq_false_iff_ne,
    ne_eq, decide_eq_false_iff_not, not_le]
  omega

theorem isDigitCh_ne_dollar {c : Char} (h : isDigitCh c = true) : ¬ (c = '$') := by
  intro hc
  subst hc
  exact absurd h (by decide)

theorem startsWith_head_ne {c p : Char} (cs ps : Chars) (h : (c == p) = false) :
    startsWith (c :: cs) (p :: ps) = false := by
  simp [startsWith, h]

theorem startsWith_excl {l ps qs : Chars} {p q : Char}
    (h : startsWith l (p :: ps) = true) (hpq : (p == q) = false) :
    startsWith l (q :: qs) = false := by
  cases l with
  | nil => simp [startsWith] at h
  | cons c t =>
    simp only [startsWith, Bool.and_eq_true, beq_iff_eq] at h
    obtain ⟨rfl, -⟩ := h
    simp [startsWith, hpq]

theorem markers_false_of_head (c : Char) (t : Chars)
    (h1 : (c == 'I') = false) (h2 : (c == 'L') = false) (h3 : (c == ';') = false) :
    startsWith (c :: t) kwINPUT = false ∧ startsWith (c :: t) kwLABEL = false ∧
      startsWith (c :: t) kwSemi = false := by
  refine ⟨?_, ?_, ?_⟩
  · exact startsWith_head_ne t _ h1
  · exact startsWith_head_ne t _ h2
  · exact startsWith_head_ne t _ h3

theorem pyStrip_sandwich {a c : Char} (m : Chars)
    (ha : isSpaceCh a = false) (hc : isSpaceCh c = false) :
    pyStrip (a :: (m ++ [c])) = a :: (m ++ [c]) := by
  unfold pyStrip
  rw [List.dropWhile_cons_of_neg (by simp [ha])]
  have h1 : (a :: (m ++ [c])).reverse = c :: (m.reverse ++ [a]) := by simp
  rw [h1, List.dropWhile_cons_of_neg (by simp [hc])]
  simp

theorem searchDirective_of_matchAt {l : Chars} {d : Directive}
    (h : matchDirectiveAt l = some d) : searchDirective l = some d := by
  cases l with
  | nil => simp [matchDirectiveAt] at h
  | cons c t => simp [searchDirective, h]

theorem searchLabel_of_matchAt {l : Chars} {r : Chars × Chars}
    (h : matchLabelAt l = some r) : searchLabel l = some r := by
  cases l with
  | nil => simp [matchLabelAt, expectRun] at h
  | cons c t => simp [searchLabel, h]

theorem matchDirectiveAt_canonical (ds nm ws rest : Chars) (b : Bool)
    (hds : ds ≠ []) (hds2 : ∀ c ∈ ds, isDigitCh c = true)
    (hnm : nm ≠ []) (hnm2 : ∀ c ∈ nm, isNameCh c = true)
    (hws : ws ≠ []) (hws2 : ∀ c ∈ ws, isDigitCh c = true) :
    matchDirectiveAt (directiveLine ds nm b ws ++ rest)
      = some ⟨digitsToNat ds, nm, b, digitsToNat ws⟩ := by
  obtain ⟨n0, nt, rfl⟩ := List.exists_cons_of_ne_nil hnm
  obtain ⟨w0, wt, rfl⟩ := List.exists_cons_of_ne_nil hws
  have hn0 : isNameCh n0 = true := hnm2 n0 (List.mem_cons_self n0 nt)
  have hw0 : isDigitCh w0 = true := hws2 w0 (List.mem_cons_self w0 wt)
  cases b with
  | false =>
    have hbody : directiveLine ds (n0 :: nt) false (w0 :: wt) ++ rest
        = '@' :: (ds ++ ' ' :: ((n0 :: nt) ++ ' ' :: ((w0 :: wt) ++ '.' :: rest))) := by
      simp [directiveLine]
    rw [hbody]
    have e1 := expectRun_append (p := isDigitCh) (l := ds)
      (r := ' ' :: ((n0 :: nt) ++ ' ' :: ((w0 :: wt) ++ '.' :: rest))) hds hds2
      (by intro c hc; simp at hc; subst hc; decide)
    have e2 := expectRun_append (p := isSpaceCh) (l := [' '])
      (r := (n0 :: nt) ++ ' ' :: ((w0 :: wt) ++ '.' :: rest)) (by simp)
      (by intro c hc; simp at hc; subst hc; decide)
      (by intro c hc; simp at hc; subst hc; exact isNameCh_not_space hn0)
    have e3 := expectRun_append (p := isNameCh) (l := n0 :: nt)
      (r := ' ' :: ((w0 :: wt) ++ '.' :: rest)) (by simp) hnm2
      (by intro c hc; simp at hc; subst hc; decide)
    have e4 := expectRun_append (p := isSpaceCh) (l := [' '])
      (r := (w0 :: wt) ++ '.' :: rest) (by simp)
      (by intro c hc; simp at hc; subst hc; decide)
      (by intro c hc; simp at hc; subst hc; exact isDigitCh_not_space hw0)
    have e5 := expectRun_append (p := isDigitCh) (l := w0 :: wt)
      (r := '.' :: rest) (by simp) hws2
      (by intro c hc; simp at hc; subst hc; decide)
    simp only [List.singleton_append] at e2 e4
    simp only [List.cons_append] at e1 e2 e3 e4 e5 ⊢
    simp only [matchDirectiveAt, if_true]
    simp only [e1, e2, e3, e4]
    rw [show dollarSplit (w0 :: (wt ++ '.' :: rest)) = (false, w0 :: (wt ++ '.' :: rest)) from by
      simp [dollarSplit, isDigitCh_ne_dollar hw0]]
    simp only [e5]
    simp
  | true =>
    have hbody : directiveLine ds (n0 :: nt) true (w0 :: wt) ++ rest
        = '@' :: (ds ++ ' ' :: ((n0 :: nt) ++ ' ' :: ('$' :: ((w0 :: wt) ++ '.' :: rest)))) := by
      simp [directiveLine]
    rw [hbody]
    have e1 := expectRun_append (p := isDigitCh) (l := ds)
      (r := ' ' :: ((n0 :: nt) ++ ' ' :: ('$' :: ((w0 :: wt) ++ '.' :: rest)))) hds hds2
      (by intro c hc; simp at hc; subst hc; decide)
    have e2 := expectRun_append (p := isSpaceCh) (l := [' '])
      (r := (n0 :: nt) ++ ' ' :: ('$' :: ((w0 :: wt) ++ '.' :: rest))) (by simp)
      (by intro c hc; simp at hc; subst hc; decide)
      (by intro c hc; simp at hc; subst hc; exact isNameCh_not_space hn0)
    have e3 := expectRun_append (p := isNameCh) (l := n0 :: nt)
      (r := ' ' :: ('$' :: ((w0 :: wt) ++ '.' :: rest))) (by simp) hnm2
      (by intro c hc; simp at hc; subst hc; decide)
    have e4 := expectRun_append (p := isSpaceCh) (l := [' '])
      (r := '$' :: ((w0 :: wt) ++ '.' :: rest)) (by simp)
      (by intro c hc; simp at hc; subst hc; decide)
      (by intro c hc; simp at hc; subst hc; decide)
    have e5 := expectRun_append (p := isDigitCh) (l := w0 :: wt)
      (r := '.' :: rest) (by simp) hws2
      (by intro c hc; simp at hc; subst hc; decide)
    simp only [List.singleton_append] at e2 e4
    simp only [List.cons_append] at e1 e2 e3 e4 e5 ⊢
    simp only [matchDirectiveAt, if_true]
    simp only [e1, e2, e3, e4]
    rw [show dollarSplit ('$' :: (w0 :: (wt ++ '.' :: rest))) = (true, w0 :: (wt ++ '.' :: rest)) from by
      simp [dollarSplit]]
    simp only [e5]
    simp

theorem lastQuoteSplit_concat (desc : Chars) :
    lastQuoteSplit (desc ++ ['"']) = some desc := by
  unfold lastQuoteSplit
  have h1 : (desc ++ ['"']).reverse = '"' :: desc.reverse := by simp
  rw [h1, List.dropWhile_cons_of_neg (by simp)]
  simp

theorem matchLabelAt_canonical (nm desc : Chars)
    (hnm : nm ≠ []) (hnm2 : ∀ c ∈ nm, isNameCh c = true) :
    matchLabelAt (labelLine nm desc) = some (nm, desc) := by
  have e1 := expectRun_append (p := isNameCh) (l := nm)
    (r := ' ' :: '=' :: ' ' :: '"' :: (desc ++ ['"'])) hnm hnm2
    (by intro c hc; simp at hc; subst hc; decide)
  simp only [matchLabelAt, labelLine, e1]
  rw [List.dropWhile_cons_of_pos (by decide), List.dropWhile_cons_of_neg (by decide)]
  simp only [if_true]
  rw [List.dropWhile_cons_of_pos (by decide), List.dropWhile_cons_of_neg (by decide)]
  simp only [if_true]
  simp [lastQuoteSplit_concat]

/- Projection lemmas for the two fall-through blocks of the loop body. -/

theorem labelStep_proj (s : ScanState) (line : Chars) :
    (labelStep s line).meta.colspecs = s.meta.colspecs ∧
    (labelStep s line).meta.names = s.meta.names ∧
    (labelStep s line).meta.dtypes = s.meta.dtypes ∧
    (labelStep s line).is_input = s.is_input ∧
    (labelStep s line).is_label = s.is_label := by
  unfold labelStep
  split
  · cases searchLabel line <;> simp
  · simp

theorem inputStep_proj (s : ScanState) (line : Chars) :
    (inputStep s line).meta.labels = s.meta.labels ∧
    (inputStep s line).is_input = s.is_input ∧
    (inputStep s line).is_label = s.is_label := by
  unfold inputStep
  split
  · cases searchDirective line <;> simp
  · simp

theorem inputStep_of_none (s : ScanState) (line : Chars)
    (h : searchDirective line = none) : inputStep s line = s := by
  unfold inputStep
  split
  · rw [h]
  · rfl

theorem inputStep_not_input (s : ScanState) (line : Chars)
    (h : s.is_input = false) : inputStep s line = s := by
  unfold inputStep
  rw [h]
  simp

theorem inputStep_of_some (s : ScanState) (line : Chars) (d : Directive)
    (hin : s.is_input = true) (h : searchDirective line = some d) :
    inputStep s line =
      { s with meta :=
        { s.meta with
          colspecs := s.meta.colspecs ++
            [((d.start : Int) - 1, (d.start : Int) - 1 + (d.width : Int))],
          names := s.meta.names ++ [d.name],
          dtypes := dictInsert s.meta.dtypes d.name
            (if d.isChar then strSTR else strFLOAT32) } } := by
  unfold inputStep
  rw [hin, h]
  simp

theorem labelStep_not_label (s : ScanState) (line : Chars)
    (h : s.is_label = false) : labelStep s line = s := by
  unfold labelStep
  rw [h]
  simp

theorem labelStep_of_some (s : ScanState) (line : Chars) (nd : Chars × Chars)
    (hl : s.is_label = true) (h : searchLabel line = some nd) :
    labelStep s line =
      { s with meta := { s.meta with labels := dictInsert s.meta.labels nd.1 nd.2 } } := by
  unfold labelStep
  rw [hl, h]
  simp

theorem scanLine_fallthrough (s : ScanState) (raw : Chars)
    (h1 : startsWith (pyStrip raw) kwINPUT = false)
    (h2 : startsWith (pyStrip raw) kwLABEL = false)
    (h3 : startsWith (pyStrip raw) kwSemi = false) :
    scanLine s raw = labelStep (inputStep s (pyStrip raw)) (pyStrip raw) := by
  unfold scanLine
  simp [h1, h2, h3]

theorem kwLABEL_not_kwINPUT {l : Chars} (h : startsWith l kwLABEL = true) :
    startsWith l kwINPUT = false :=
  startsWith_excl (p := 'L') (q := 'I') h (by decide)

theorem kwSemi_not_kwINPUT {l : Chars} (h : startsWith l kwSemi = true) :
    startsWith l kwINPUT = false :=
  startsWith_excl (p := ';') (q := 'I') h (by decide)

theorem kwSemi_not_kwLABEL {l : Chars} (h : startsWith l kwSemi = true) :
    startsWith l kwLABEL = false :=
  startsWith_excl (p := ';') (q := 'L') h (by decide)

theorem scanLine_markerINPUT (s : ScanState) (raw : Chars)
    (h : startsWith (pyStrip raw) kwINPUT = true) :
    scanLine s raw = ⟨s.meta, true, false⟩ := by
  unfold scanLine
  simp [h]

theorem scanLine_markerLABEL (s : ScanState) (raw : Chars)
    (h : startsWith (pyStrip raw) kwLABEL = true)
    (h1 : startsWith (pyStrip raw) kwINPUT = false) :
    scanLine s raw = ⟨s.meta, false, true⟩ := by
  unfold scanLine
  simp [h, h1]

theorem scanLine_markerSemi (s : ScanState) (raw : Chars)
    (h : startsWith (pyStrip raw) kwSemi = true)
    (h1 : startsWith (pyStrip raw) kwINPUT = false)
    (h2 : startsWith (pyStrip raw) kwLABEL = false) :
    scanLine s raw = ⟨s.meta, false, false⟩ := by
  unfold scanLine
  simp [h, h1, h2]

theorem markers_false_directiveLine (ds nm ws : Chars) (b : Bool) :
    startsWith (directiveLine ds nm b ws) kwINPUT = false ∧
    startsWith (directiveLine ds nm b ws) kwLABEL = false ∧
    startsWith (directiveLine ds nm b ws) kwSemi = false := by
  simp only [directiveLine]
  exact markers_false_of_head '@' _ (by decide) (by decide) (by decide)

theorem markers_false_directiveLine_append (ds nm ws rest : Chars) (b : Bool) :
    startsWith (directiveLine ds nm b ws ++ rest) kwINPUT = false ∧
    startsWith (directiveLine ds nm b ws ++ rest) kwLABEL = false ∧
    startsWith (directiveLine ds nm b ws ++ rest) kwSemi = false := by
  simp only [directiveLine, List.cons_append]
  exact markers_false_of_head '@' _ (by decide) (by decide) (by decide)

theorem pyStrip_directiveLine (ds nm ws : Chars) (b : Bool) :
    pyStrip (directiveLine ds nm b ws) = directiveLine ds nm b ws := by
  have h : directiveLine ds nm b ws
      = '@' :: ((ds ++ ' ' :: (nm ++ ' ' :: (if b then '$' :: ws else ws))) ++ ['.']) := by
    simp [directiveLine]
  rw [h, pyStrip_sandwich _ (by decide) (by decide)]

theorem pyStrip_two_directives (ds1 nm1 ws1 ds2 nm2 ws2 : Chars) (b1 b2 : Bool) :
    pyStrip (directiveLine ds1 nm1 b1 ws1 ++ ' ' :: directiveLine ds2 nm2 b2 ws2)
      = directiveLine ds1 nm1 b1 ws1 ++ ' ' :: directiveLine ds2 nm2 b2 ws2 := by
  have h : directiveLine ds1 nm1 b1 ws1 ++ ' ' :: directiveLine ds2 nm2 b2 ws2
      = '@' :: ((ds1 ++ ' ' :: (nm1 ++ ' ' ::
          ((if b1 then '$' :: ws1 else ws1) ++ '.' :: ' ' :: '@' ::
            (ds2 ++ ' ' :: (nm2 ++ ' ' :: (if b2 then '$' :: ws2 else ws2)))))) ++ ['.']) := by
    simp [directiveLine]
  rw [h, pyStrip_sandwich _ (by decide) (by decide)]

theorem isNameCh_ne_semi {c : Char} (h : isNameCh c = true) : (c == ';') = false := by
  simp only [beq_eq_false_iff_ne, ne_eq]
  intro h2
  subst h2
  exact absurd h (by decide)

theorem pyStrip_labelLine (nm desc : Chars) (hnm : nm ≠ [])
    (hnm2 : ∀ c ∈ nm, isNameCh c = true) :
    pyStrip (labelLine nm desc) = labelLine nm desc := by
  obtain ⟨n0, nt, rfl⟩ := List.exists_cons_of_ne_nil hnm
  have h : labelLine (n0 :: nt) desc
      = n0 :: ((nt ++ ' ' :: '=' :: ' ' :: '"' :: desc) ++ ['"']) := by
    simp [labelLine]
  rw [h, pyStrip_sandwich _
    (isNameCh_not_space (hnm2 n0 (List.mem_cons_self n0 nt))) (by decide)]

theorem scanLine_colspecs_le (s : ScanState) (raw : Chars) :
    (scanLine s raw).meta.colspecs.length ≤ s.meta.colspecs.length + 1 := by
  cases hI : startsWith (pyStrip raw) kwINPUT with
  | true => rw [scanLine_markerINPUT s raw hI]; exact Nat.le_succ _
  | false =>
    cases hL : startsWith (pyStrip raw) kwLABEL with
    | true => rw [scanLine_markerLABEL s raw hL hI]; exact Nat.le_succ _
    | false =>
      cases hS : startsWith (pyStrip raw) kwSemi with
      | true => rw [scanLine_markerSemi s raw hS hI hL]; exact Nat.le_succ _
      | false =>
        rw [scanLine_fallthrough s raw hI hL hS, (labelStep_proj _ _).1]
        unfold inputStep
        split
        · cases hd : searchDirective (pyStrip raw) with
          | none => exact Nat.le_succ _
          | some d => simp
        · exact Nat.le_succ _

theorem scanLine_colspecOk (s : ScanState) (raw : Chars)
    (h : ∀ p ∈ s.meta.colspecs, colspecOk p) :
    ∀ p ∈ (scanLine s raw).meta.colspecs, colspecOk p := by
  cases hI : startsWith (pyStrip raw) kwINPUT with
  | true => rw [scanLine_markerINPUT s raw hI]; exact h
  | false =>
    cases hL : startsWith (pyStrip raw) kwLABEL with
    | true => rw [scanLine_markerLABEL s raw hL hI]; exact h
    | false =>
      cases hS : startsWith (pyStrip raw) kwSemi with
      | true => rw [scanLine_markerSemi s raw hS hI hL]; exact h
      | false =>
        rw [scanLine_fallthrough s raw hI hL hS, (labelStep_proj _ _).1]
        unfold inputStep
        split
        · cases hd : searchDirective (pyStrip raw) with
          | none => exact h
          | some d =>
            intro p hp
            simp only [List.mem_append, List.mem_singleton] at hp
            rcases hp with hp | rfl
            · exact h p hp
            · constructor
              · simp only []
                omega
              · simp only []
                omega
        · exact h

theorem foldl_colspecOk (lines : List Chars) :
    ∀ s : ScanState, (∀ p ∈ s.meta.colspecs, colspecOk p) →
      ∀ p ∈ (lines.foldl scanLine s).meta.colspecs, colspecOk p := by
  induction lines with
  | nil => intro s h; exact h
  | cons l t ih => intro s h; exact ih _ (scanLine_colspecOk s l h)

/-- C1: while the Extractor is in the field-directive section, a well-formed
directive line `@N NAME W.` / `@N NAME $W.` appends exactly one column:
the colspec (N-1, N-1+W) (0-based half-open), the name NAME, and the dtype
entry 'str' iff the `$` marker is present ('float32' otherwise). -/
theorem C1_directive_line_appends (s : ScanState) (ds nm ws : Chars) (b : Bool)
    (hds : ds ≠ []) (hds2 : ∀ c ∈ ds, isDigitCh c = true)
    (hnm : nm ≠ []) (hnm2 : ∀ c ∈ nm, isNameCh c = true)
    (hws : ws ≠ []) (hws2 : ∀ c ∈ ws, isDigitCh c = true)
    (hin : s.is_input = true) :
    (scanLine s (directiveLine ds nm b ws)).meta.colspecs
        = s.meta.colspecs ++
          [((digitsToNat ds : Int) - 1,
            (digitsToNat ds : Int) - 1 + (digitsToNat ws : Int))]
    ∧ (scanLine s (directiveLine ds nm b ws)).meta.names = s.meta.names ++ [nm]
    ∧ (scanLine s (directiveLine ds nm b ws)).meta.dtypes
        = dictInsert s.meta.dtypes nm (if b then strSTR else strFLOAT32) := by
  obtain ⟨hm1, hm2, hm3⟩ := markers_false_directiveLine ds nm ws b
  have hstrip := pyStrip_directiveLine ds nm ws b
  have hsrch : searchDirective (directiveLine ds nm b ws)
      = some ⟨digitsToNat ds, nm, b, digitsToNat ws⟩ := by
    apply searchDirective_of_matchAt
    have h := matchDirectiveAt_canonical ds nm ws [] b hds hds2 hnm hnm2 hws hws2
    simpa using h
  rw [scanLine_fallthrough s _ (by rw [hstrip]; exact hm1) (by rw [hstrip]; exact hm2)
        (by rw [hstrip]; exact hm3), hstrip,
      inputStep_of_some s _ _ hin hsrch]
  exact ⟨by rw [(labelStep_proj _ _).1], by rw [(labelStep_proj _ _).2.1],
         by rw [(labelStep_proj _ _).2.2.1]⟩

/-- C1 witness: the directive `@9 AGE13X 2.` scanned in the field-directive
section appends colspec (8, 10), name AGE13X, dtype 'float32'. -/
theorem C1_witness :
    (scanLine ⟨⟨[], [], [], []⟩, true, false⟩
        (directiveLine ['9'] ['A', 'G', 'E', '1', '3', 'X'] false ['2'])).meta.colspecs = [(8, 10)]
    ∧ (scanLine ⟨⟨[], [], [], []⟩, true, false⟩
        (directiveLine ['9'] ['A', 'G', 'E', '1', '3', 'X'] false ['2'])).meta.names
      = [['A', 'G', 'E', '1', '3', 'X']]
    ∧ (scanLine ⟨⟨[], [], [], []⟩, true, false⟩
        (directiveLine ['9'] ['A', 'G', 'E', '1', '3', 'X'] false ['2'])).meta.dtypes
      = [(['A', 'G', 'E', '1', '3', 'X'], strFLOAT32)] := by
  obtain ⟨h1, h2, h3⟩ := C1_directive_line_appends ⟨⟨[], [], [], []⟩, true, false⟩
    ['9'] ['A', 'G', 'E', '1', '3', 'X'] ['2'] false
    (by decide) (by decide) (by decide) (by decide) (by decide) (by decide) rfl
  refine ⟨?_, ?_, ?_⟩
  · rw [h1]; decide
  · rw [h2]; decide
  · rw [h3]; decide

/-- C8: a stripped line beginning with `INPUT` enters the field-directive
section, one beginning with `LABEL` enters the description section, one
beginning with `;` closes both; in each case the marker line only switches
the flags and leaves all accumulators untouched (it is consumed, never
matched against either pattern). -/
theorem C8_section_markers (s : ScanState) (raw : Chars) :
    (startsWith (pyStrip raw) kwINPUT = true →
      scanLine s raw = ⟨s.meta, true, false⟩)
    ∧ (startsWith (pyStrip raw) kwLABEL = true →
      scanLine s raw = ⟨s.meta, false, true⟩)
    ∧ (startsWith (pyStrip raw) kwSemi = true →
      scanLine s raw = ⟨s.meta, false, false⟩) := by
  refine ⟨fun h => scanLine_markerINPUT s raw h,
          fun h => scanLine_markerLABEL s raw h (kwLABEL_not_kwINPUT h),
          fun h => scanLine_markerSemi s raw h (kwSemi_not_kwINPUT h) (kwSemi_not_kwLABEL h)⟩

/-- C8 witness: the three marker lines at concrete states; the first line
even contains a syntactically valid directive, which is not matched. -/
theorem C8_witness :
    scanLine ⟨⟨[], [], [], []⟩, false, false⟩ ("INPUT @1 A 2.".toList)
      = ⟨⟨[], [], [], []⟩, true, false⟩
    ∧ scanLine ⟨⟨[], [], [], []⟩, true, false⟩ ("LABEL".toList)
      = ⟨⟨[], [], [], []⟩, false, true⟩
    ∧ scanLine ⟨⟨[], [], [], []⟩, true, false⟩ (";".toList)
      = ⟨⟨[], [], [], []⟩, false, false⟩ :=
  ⟨(C8_section_markers _ _).1 (by decide),
   (C8_section_markers _ _).2.1 (by decide),
   (C8_section_markers _ _).2.2 (by decide)⟩

/-- C10: one scanned line appends at most one colspec, and when a line in
the field-directive section contains two well-formed directives, only the
first (leftmost) one is appended. -/
theorem C10_first_match_only :
    (∀ (s : ScanState) (raw : Chars),
        (scanLine s raw).meta.colspecs.length ≤ s.meta.colspecs.length + 1)
    ∧ (∀ (s : ScanState) (ds1 nm1 ws1 ds2 nm2 ws2 : Chars) (b1 b2 : Bool),
        ds1 ≠ [] → (∀ c ∈ ds1, isDigitCh c = true) →
        nm1 ≠ [] → (∀ c ∈ nm1, isNameCh c = true) →
        ws1 ≠ [] → (∀ c ∈ ws1, isDigitCh c = true) →
        s.is_input = true →
        (scanLine s (directiveLine ds1 nm1 b1 ws1 ++
            ' ' :: directiveLine ds2 nm2 b2 ws2)).meta.colspecs
            = s.meta.colspecs ++
              [((digitsToNat ds1 : Int) - 1,
                (digitsToNat ds1 : Int) - 1 + (digitsToNat ws1 : Int))]
          ∧ (scanLine s (directiveLine ds1 nm1 b1 ws1 ++
              ' ' :: directiveLine ds2 nm2 b2 ws2)).meta.names
            = s.meta.names ++ [nm1]) := by
  constructor
  · exact scanLine_colspecs_le
  · intro s ds1 nm1 ws1 ds2 nm2 ws2 b1 b2 hds hds2 hnm hnm2 hws hws2 hin
    obtain ⟨hm1, hm2, hm3⟩ :=
      markers_false_directiveLine_append ds1 nm1 ws1 (' ' :: directiveLine ds2 nm2 b2 ws2) b1
    have hstrip := pyStrip_two_directives ds1 nm1 ws1 ds2 nm2 ws2 b1 b2
    have hsrch : searchDirective (directiveLine ds1 nm1 b1 ws1 ++
          ' ' :: directiveLine ds2 nm2 b2 ws2)
        = some ⟨digitsToNat ds1, nm1, b1, digitsToNat ws1⟩ :=
      searchDirective_of_matchAt
        (matchDirectiveAt_canonical ds1 nm1 ws1 _ b1 hds hds2 hnm hnm2 hws hws2)
    rw [scanLine_fallthrough s _ (by rw [hstrip]; exact hm1) (by rw [hstrip]; exact hm2)
          (by rw [hstrip]; exact hm3), hstrip,
        inputStep_of_some s _ _ hin hsrch]
    exact ⟨by rw [(labelStep_proj _ _).1], by rw [(labelStep_proj _ _).2.1]⟩

/-- C10 witness: a line containing the two directives `@2 B 3.` and
`@4 C 5.` appends only (1, 4); and a single-line scan grows colspecs by at
most one. -/
theorem C10_witness :
    (scanLine ⟨⟨[], [], [], []⟩, true, false⟩
        (directiveLine ['2'] ['B'] false ['3'] ++
          ' ' :: directiveLine ['4'] ['C'] false ['5'])).meta.colspecs = [(1, 4)]
    ∧ (scanLine ⟨⟨[], [], [], []⟩, true, false⟩ ("@7 Z 2.".toList)).meta.colspecs.length ≤ 1 := by
  constructor
  · rw [(C10_first_match_only.2 ⟨⟨[], [], [], []⟩, true, false⟩ ['2'] ['B'] ['3'] ['4'] ['C'] ['5']
      false false (by decide) (by decide) (by decide) (by decide) (by decide) (by decide) rfl).1]
    decide
  · exact C10_first_match_only.1 ⟨⟨[], [], [], []⟩, true, false⟩ ("@7 Z 2.".toList)

/-- C2 counterexample: on empty grammar text the Extractor does not fail —
it returns the empty schema (the claim says it raises `GrammarParseError`
rather than returning an empty schema). -/
theorem C2_cex_empty_grammar :
    parse_sas_instructions [] = { colspecs := [], names := [], dtypes := [], labels := [] } :=
  rfl

/-- C2 amended: the Extractor never fails; a grammar with zero field
directives (in particular empty grammar text) yields an empty schema. -/
theorem C2_amended_empty_schema :
    (parse_sas_instructions []).colspecs = [] ∧ (parse_sas_instructions []).names = []
    ∧ (parse_sas_instructions []).dtypes = [] ∧ (parse_sas_instructions []).labels = [] :=
  ⟨rfl, rfl, rfl, rfl⟩

/-- C3 counterexample: a grammar repeating the column name A in two
directives yields a schema whose name list is not duplicate-free. -/
theorem C3_cex_duplicate_names :
    ¬ ((parse_sas_instructions
        ["INPUT".toList, "@1 A 2.".toList, "@3 A $4.".toList]).names).Nodup := by
  decide

/-- C3 amended: matching directive lines always append, so a repeated name
occurs once per directive in directive order in names and colspecs; only the
dtype mapping is deduplicated by name, the last directive winning (value
updated at the first-insertion position). -/
theorem C3_amended_duplicates_kept :
    parse_sas_instructions ["INPUT".toList, "@1 A 2.".toList, "@3 A $4.".toList]
      = { colspecs := [(0, 2), (2, 6)], names := [['A'], ['A']],
          dtypes := [(['A'], strSTR)], labels := [] } := by
  decide

/-- C4 counterexample: the directives `@0 A 1.` and `@1 A 0.` produce
colspecs (-1, 0) and (0, 0), violating 0 ≤ start and start < end. -/
theorem C4_cex_invariant_violated :
    ¬ (∀ p ∈ (parse_sas_instructions ["INPUT".toList, "@0 A 1.".toList]).colspecs,
        0 ≤ p.1 ∧ p.1 < p.2)
    ∧ ¬ (∀ p ∈ (parse_sas_instructions ["INPUT".toList, "@1 A 0.".toList]).colspecs,
        0 ≤ p.1 ∧ p.1 < p.2) := by
  constructor
  · decide
  · decide

/-- C4 amended: every colspec produced by the Extractor, on any grammar
text, satisfies the relaxed invariant -1 ≤ start and start ≤ end (start is
N-1 for a non-negative N and end adds a non-negative width). -/
theorem C4_amended_relaxed_invariant (lines : List Chars) (p : Int × Int)
    (hp : p ∈ (parse_sas_instructions lines).colspecs) :
    -1 ≤ p.1 ∧ p.1 ≤ p.2 :=
  foldl_colspecOk lines initState (by intro q hq; simp [initState] at hq) p hp

/-- C4 witness: the colspec (0, 2) of `@1 A 2.` satisfies the relaxed
invariant. -/
theorem C4_witness :
    (0, 2) ∈ (parse_sas_instructions ["INPUT".toList, "@1 A 2.".toList]).colspecs
    ∧ -1 ≤ ((0, 2) : Int × Int).1 ∧ ((0, 2) : Int × Int).1 ≤ ((0, 2) : Int × Int).2 := by
  have hm : (0, 2) ∈ (parse_sas_instructions ["INPUT".toList, "@1 A 2.".toList]).colspecs := by
    decide
  exact ⟨hm, C4_amended_relaxed_invariant ["INPUT".toList, "@1 A 2.".toList] (0, 2) hm⟩

/-- C7 counterexample: a description line `XX = "D"` whose name matches no
directive is not dropped — it appears in the Extractor's output labels. -/
theorem C7_cex_unmatched_label_kept :
    (parse_sas_instructions ["LABEL".toList, "XX = \"D\"".toList]).labels
        = [(['X', 'X'], ['D'])]
    ∧ (parse_sas_instructions ["LABEL".toList, "XX = \"D\"".toList]).names = [] := by
  decide

/-- C7 amended: while in the description section, every line matching the
description pattern stores its name/text pair in the labels mapping,
regardless of whether any directive defines that name; the Extractor never
merges labels onto columns nor drops them. -/
theorem C7_amended_label_always_stored (s : ScanState) (nm desc : Chars)
    (hnm : nm ≠ []) (hnm2 : ∀ c ∈ nm, isNameCh c = true)
    (hlab : s.is_label = true) (hinp : s.is_input = false)
    (hm1 : startsWith (labelLine nm desc) kwINPUT = false)
    (hm2 : startsWith (labelLine nm desc) kwLABEL = false) :
    scanLine s (labelLine nm desc)
      = { s with meta := { s.meta with labels := dictInsert s.meta.labels nm desc } } := by
  have hstrip := pyStrip_labelLine nm desc hnm hnm2
  have hm3 : startsWith (labelLine nm desc) kwSemi = false := by
    obtain ⟨n0, nt, rfl⟩ := List.exists_cons_of_ne_nil hnm
    have hn0 : isNameCh n0 = true := hnm2 n0 (List.mem_cons_self n0 nt)
    have h : labelLine (n0 :: nt) desc
        = n0 :: (nt ++ ' ' :: '=' :: ' ' :: '"' :: (desc ++ ['"'])) := by
      simp [labelLine]
    rw [h]
    exact startsWith_head_ne _ _ (isNameCh_ne_semi hn0)
  have hsrch : searchLabel (labelLine nm desc) = some (nm, desc) :=
    searchLabel_of_matchAt (matchLabelAt_canonical nm desc hnm hnm2)
  rw [scanLine_fallthrough s _ (by rw [hstrip]; exact hm1) (by rw [hstrip]; exact hm2)
        (by rw [hstrip]; exact hm3), hstrip,
      inputStep_not_input s _ hinp,
      labelStep_of_some s _ (nm, desc) hlab hsrch]

/-- C7 witness: the description line `XX = "D"` scanned in the description
section with no matching directive is stored in labels. -/
theorem C7_witness :
    scanLine ⟨⟨[], [], [], []⟩, false, true⟩ (labelLine ['X', 'X'] ['D'])
      = ⟨⟨[], [], [], [(['X', 'X'], ['D'])]⟩, false, true⟩ := by
  rw [C7_amended_label_always_stored ⟨⟨[], [], [], []⟩, false, true⟩ ['X', 'X'] ['D']
    (by decide) (by decide) rfl rfl (by decide) (by decide)]
  decide

/-- C5 counterexample (decoder modelled from the spec's clip-and-trim rule):
the record "ABC" is shorter than the Text column [1, 5), yet its decoded
value is the clipped slice "BC", not the empty string; likewise the record
"  42" is shorter than the Numeric column [1, 5), yet decodes to 42, not
missing. -/
theorem C5_cex_clipped_slice :
    ("ABC".toList).length < 5
    ∧ decodeCell ("ABC".toList) ⟨['F'], 1, 5, ColKind.Text⟩ = CellValue.text ("BC".toList)
    ∧ CellValue.text ("BC".toList) ≠ CellValue.text ([] : Chars)
    ∧ ("  42".toList).length < 5
    ∧ decodeCell ("  42".toList) ⟨['G'], 1, 5, ColKind.Numeric⟩ = CellValue.num 42 := by
  refine ⟨by decide, by decide, by decide, by decide, by decide⟩

/-- C5 amended: decoding is total — every record yields a row — and the
missing value (Numeric) / empty string (Text) is guaranteed whenever the
record's length is at most the column's start offset; a record merely
shorter than the end offset yields the clipped-and-trimmed slice decoded
normally. -/
theorem C5_amended_short_record (record : Chars) (c : ColumnSpec)
    (h : record.length ≤ c.start_offset) :
    decodeCell record c = (match c.kind with
      | ColKind.Text => CellValue.text []
      | ColKind.Numeric => CellValue.missing)
    ∧ ∀ (schema : List ColumnSpec) (records : List Chars),
        (decodeTable schema records).length = records.length := by
  constructor
  · have hdrop : record.drop c.start_offset = [] := List.drop_eq_nil_of_le h
    have hext : extractField record c.start_offset c.end_offset = [] := by
      simp [extractField, hdrop]
    cases hk : c.kind
    · simp [decodeCell, hext, hk, pyStrip]
    · simp [decodeCell, hext, hk, pyStrip]
      rfl
  · intro schema records
    simp [decodeTable]

/-- C5 witness: the record "AB" against a Numeric column [5, 9) decodes to
the missing marker, and a two-record stream yields exactly two rows. -/
theorem C5_witness :
    decodeCell ("AB".toList) ⟨['N'], 5, 9, ColKind.Numeric⟩ = CellValue.missing
    ∧ (decodeTable [⟨['N'], 5, 9, ColKind.Numeric⟩] ["AB".toList, "CD".toList]).length = 2 := by
  have h := C5_amended_short_record ("AB".toList) ⟨['N'], 5, 9, ColKind.Numeric⟩ (by decide)
  exact ⟨h.1, h.2 _ _⟩

/-- C6: a Numeric cell whose trimmed substring is empty decodes to the
missing marker; the substring "  42  " decodes to the number 42; the
non-numeric substring "AB" decodes to the missing marker. -/
theorem C6_numeric_cell_policy (raw : Chars) (h : pyStrip raw = []) :
    decodeNumericCell raw = none
    ∧ decodeNumericCell ("  42  ".toList) = some 42
    ∧ decodeNumericCell ("AB".toList) = none := by
  refine ⟨?_, by decide, by decide⟩
  unfold decodeNumericCell
  rw [h]
  decide

/-- C6 witness: instantiation at the all-blank substring "   ". -/
theorem C6_witness :
    decodeNumericCell ("   ".toList) = none
    ∧ decodeNumericCell ("  42  ".toList) = some 42
    ∧ decodeNumericCell ("AB".toList) = none :=
  C6_numeric_cell_policy ("   ".toList) (by decide)
